import Mathlib

/-!
Shallow embedding of the frequency-segmentation engine of gr-analyzer
(src/configuration.py and src/cli_parser.py).  Python floats are modelled
as exact rationals; Python 2 `round` rounds half away from zero, `int()`
truncates toward zero, `math.floor` is the integer floor, and
`numpy.arange start stop step` produces `start + i*step` for
`0 ≤ i < ⌈(stop - start)/step⌉`.
-/

/-- Python 2 `round`, half away from zero, as an integer result. -/
def pyRound (q : ℚ) : ℤ :=
  if 0 ≤ q then ⌊q + 1/2⌋ else -⌊-q + 1/2⌋

/-- Python `int()` on a rational: truncation toward zero. -/
def pyInt (q : ℚ) : ℤ :=
  if 0 ≤ q then ⌊q⌋ else ⌈q⌉

/-- Number of elements of `numpy.arange start stop step`. -/
def arangeLen (start stop step : ℚ) : ℕ :=
  (⌈(stop - start) / step⌉).toNat

/-- `numpy.arange start stop step` as a list of rationals. -/
def npArange (start stop step : ℚ) : List ℚ :=
  (List.range (arangeLen start stop step)).map (fun i : ℕ => start + (i : ℚ) * step)

namespace configuration

/-- The primitive scan parameters held by the `configuration` object:
`center_freq`, `requested_span` (`None` modelled as `none`), `sample_rate`,
`fft_size` and `overlap` (already converted from percent to a decimal). -/
structure Params where
  center_freq : ℚ
  requested_span : Option ℚ
  sample_rate : ℚ
  fft_size : ℕ
  overlap : ℚ
deriving DecidableEq

/-- `configuration.adjust_rate` (src/configuration.py lines 170-182):
`int(round((samp_rate * (1.0 - overlap)) / deltaf) * deltaf)`. -/
def adjust_rate (samp_rate deltaf overlap : ℚ) : ℤ :=
  pyInt ((pyRound ((samp_rate * (1 - overlap)) / deltaf) : ℚ) * deltaf)

/-- `update_deltaf`: `self.deltaf = self.sample_rate / self.fft_size`,
as the value it computes (defined when `fft_size ≠ 0`). -/
def deltaf (p : Params) : ℚ := p.sample_rate / (p.fft_size : ℚ)

/-- `update_freq_step`: `adjust_rate(sample_rate, deltaf, overlap)`. -/
def freq_step (p : Params) : ℚ :=
  (adjust_rate p.sample_rate (deltaf p) p.overlap : ℚ)

/-- `update_span`: `span = requested_span if requested_span else freq_step`
(Python truthiness: `None` and `0.0` both select `freq_step`). -/
def span (p : Params) : ℚ :=
  match p.requested_span with
  | some s => if s = 0 then freq_step p else s
  | none => freq_step p

/-- `update_min_max_freq`: `min_freq = center_freq - span/2 + deltaf/2`. -/
def min_freq (p : Params) : ℚ :=
  p.center_freq - span p / 2 + deltaf p / 2

/-- `update_min_max_freq`: `max_freq = min_freq + span - deltaf`. -/
def max_freq (p : Params) : ℚ :=
  min_freq p + span p - deltaf p

/-- `update_tuned_freq_cache`: `min_fc = min_freq + freq_step/2`. -/
def min_fc (p : Params) : ℚ := min_freq p + freq_step p / 2

/-- `update_tuned_freq_cache`: the cached array of tuned center frequencies.
Single segment when `span ≤ freq_step`; otherwise
`np.arange(min_fc, min_fc + floor(span/freq_step)*freq_step + 1, freq_step)`. -/
def center_freqs (p : Params) : List ℚ :=
  if span p ≤ freq_step p then [min_fc p]
  else
    npArange (min_fc p)
      (min_fc p + (⌊span p / freq_step p⌋ : ℚ) * freq_step p + 1)
      (freq_step p)

/-- `update_tuned_freq_cache`: `n_segments = len(center_freqs)`. -/
def n_segments (p : Params) : ℕ := (center_freqs p).length

/-- `update_bin_freq_cache`: `max_bin_freq = center_freqs[-1] + freq_step/2`. -/
def max_bin_freq (p : Params) : ℚ :=
  (center_freqs p).getLastD 0 + freq_step p / 2

/-- `update_bin_freq_cache`:
`bin_freqs = np.arange(min_freq, max_bin_freq, deltaf)`. -/
def bin_freqs (p : Params) : List ℚ :=
  npArange (min_freq p) (max_bin_freq p) (deltaf p)

/-- `update_bin_indices`: `bin_start = int(fft_size * (overlap / 2))`. -/
def bin_start (p : Params) : ℤ :=
  pyInt ((p.fft_size : ℚ) * (p.overlap / 2))

/-- `update_bin_indices`: `bin_stop = int(fft_size - bin_start)`. -/
def bin_stop (p : Params) : ℤ :=
  pyInt ((p.fft_size : ℚ) - (bin_start p : ℚ))

/-- `update_bin_indices`: `bin_offset = (bin_stop - bin_start) / 2`
(true division: the module imports `division` from `__future__`). -/
def bin_offset (p : Params) : ℚ :=
  ((bin_stop p : ℚ) - (bin_start p : ℚ)) / 2

/-- Modelled from the spec: `utils.find_nearest` lives in `utils.py`, which is
not under src/; per the spec it returns the index of the entry of the array
closest to the value, ties broken toward the lower index (numpy
`np.abs(array - value).argmin()`).  Auxiliary scan keeping the best index. -/
def argmin_aux : List ℚ → ℕ → ℕ → ℚ → ℕ
  | [], _, best, _ => best
  | x :: xs, i, best, bv =>
      if x < bv then argmin_aux xs (i + 1) i x else argmin_aux xs (i + 1) best bv

/-- Modelled from the spec: `utils.find_nearest(array, value)` — index of the
closest entry, ties toward the lower index.  Undefined (0) on the empty list;
the Python original raises there, which the stateful model tracks. -/
def find_nearest (l : List ℚ) (v : ℚ) : ℕ :=
  match l with
  | [] => 0
  | x :: xs => argmin_aux (xs.map (fun y => |y - v|)) 1 0 |x - v|

/-- `update_bin_indices`:
`max_plotted_bin = find_nearest(bin_freqs, max_freq) + 1`. -/
def max_plotted_bin (p : Params) : ℕ :=
  find_nearest (bin_freqs p) (max_freq p) + 1

/-- Valid scan parameters, per the spec: positive sample rate, `fft_size` a
positive multiple of 32, `0 ≤ overlap < 1`, and a positive requested span
when one is given. -/
def Valid (p : Params) : Prop :=
  0 < p.sample_rate ∧ 0 < p.fft_size ∧ 32 ∣ p.fft_size ∧
    0 ≤ p.overlap ∧ p.overlap < 1 ∧ ∀ s ∈ p.requested_span, 0 < s

/-- The derived fields of the `configuration` object set by `update()`
(src/configuration.py lines 38-50), all initialized to `None`; here they get
neutral defaults so that a pre-`update` state can be written down. -/
structure Plan where
  deltaf : ℚ := 0
  freq_step : ℚ := 0
  span : ℚ := 0
  min_freq : ℚ := 0
  max_freq : ℚ := 0
  center_freqs : List ℚ := []
  n_segments : ℕ := 0
  bin_freqs : List ℚ := []
  bin_start : ℤ := 0
  bin_stop : ℤ := 0
  bin_offset : ℚ := 0
  max_plotted_bin : ℕ := 0
deriving DecidableEq

/-- `update_deltaf` as one mutation step of `update()`. -/
def step_deltaf (p : Params) (st : Plan) : Plan :=
  { st with deltaf := p.sample_rate / (p.fft_size : ℚ) }

/-- `update_freq_step` as a mutation step (reads the freshly set `deltaf`). -/
def step_freq_step (p : Params) (st : Plan) : Plan :=
  { st with freq_step := (adjust_rate p.sample_rate st.deltaf p.overlap : ℚ) }

/-- `update_span` as a mutation step. -/
def step_span (p : Params) (st : Plan) : Plan :=
  { st with span := match p.requested_span with
                    | some s => if s = 0 then st.freq_step else s
                    | none => st.freq_step }

/-- `update_min_max_freq` as a mutation step (`max_freq` reads the freshly
written `min_freq`). -/
def step_min_max (p : Params) (st : Plan) : Plan :=
  { st with min_freq := p.center_freq - st.span / 2 + st.deltaf / 2,
            max_freq := (p.center_freq - st.span / 2 + st.deltaf / 2) + st.span - st.deltaf }

/-- `update_tuned_freq_cache` as a mutation step.  In the multi-segment
branch Python evaluates `math.floor(self.span / self.freq_step)`, which
raises `ZeroDivisionError` when `freq_step == 0`; the flag records whether
the step completed. -/
def step_tuned (st : Plan) : Plan × Bool :=
  let mfc := st.min_freq + st.freq_step / 2
  if st.span ≤ st.freq_step then
    ({ st with center_freqs := [mfc], n_segments := 1 }, true)
  else if st.freq_step = 0 then (st, false)
  else
    let cf := npArange mfc
      (mfc + (⌊st.span / st.freq_step⌋ : ℚ) * st.freq_step + 1) st.freq_step
    ({ st with center_freqs := cf, n_segments := cf.length }, true)

/-- `update_bin_freq_cache` as a mutation step.  `self.center_freqs[-1]`
raises `IndexError` on an empty array; the flag records completion. -/
def step_bin_freqs (st : Plan) : Plan × Bool :=
  match st.center_freqs.getLast? with
  | none => (st, false)
  | some last_fc =>
      ({ st with bin_freqs := npArange st.min_freq (last_fc + st.freq_step / 2) st.deltaf },
       true)

/-- `update_bin_indices` as a mutation step.  Python assigns `bin_start` and
`bin_stop` first; `find_nearest` on an empty `bin_freqs` then raises, so in
that case `max_plotted_bin` and `bin_offset` keep their previous values. -/
def step_bin_indices (p : Params) (st : Plan) : Plan × Bool :=
  if st.bin_freqs = [] then
    ({ st with
       bin_start := pyInt ((p.fft_size : ℚ) * (p.overlap / 2)),
       bin_stop := pyInt ((p.fft_size : ℚ) - (pyInt ((p.fft_size : ℚ) * (p.overlap / 2)) : ℚ)) },
     false)
  else
    ({ st with
       bin_start := pyInt ((p.fft_size : ℚ) * (p.overlap / 2)),
       bin_stop := pyInt ((p.fft_size : ℚ) - (pyInt ((p.fft_size : ℚ) * (p.overlap / 2)) : ℚ)),
       max_plotted_bin := find_nearest st.bin_freqs st.max_freq + 1,
       bin_offset := ((pyInt ((p.fft_size : ℚ) - (pyInt ((p.fft_size : ℚ) * (p.overlap / 2)) : ℚ)) : ℚ)
         - (pyInt ((p.fft_size : ℚ) * (p.overlap / 2)) : ℚ)) / 2 }, true)

/-- `update()` (src/configuration.py lines 103-111) with Python's sequential
assignment semantics: the `update_*` methods run in order and a raised
exception aborts the chain, leaving every assignment already made in place.
Returns the resulting field state and whether the chain completed. -/
def updateConfig (p : Params) (old : Plan) : Plan × Bool :=
  if p.fft_size = 0 then (old, false)
  else
    match step_tuned (step_min_max p (step_span p (step_freq_step p (step_deltaf p old)))) with
    | (st, false) => (st, false)
    | (st, true) =>
        match step_bin_freqs st with
        | (st6, false) => (st6, false)
        | (st6, true) => step_bin_indices p st6

/-- Modelled from the spec: `consts.FFT_SIZES` lives in `consts.py`, which is
not under src/; per the docstring of `set_fft_size` it holds the powers of
two from 32 to 8192. -/
def FFT_SIZES : List ℕ := [32, 64, 128, 256, 512, 1024, 2048, 4096, 8192]

/-- `set_fft_size` (src/configuration.py lines 86-94): stores the new size
when it is in `FFT_SIZES`, otherwise logs a warning and keeps the old value.
It mutates only the primitive parameter and does not call `update()`. -/
def set_fft_size (p : Params) (size : ℕ) : Params :=
  if size ∈ FFT_SIZES then { p with fft_size := size } else p

/-- `update_deltaf` viewed as a fallible computation of the bin width:
`self.sample_rate / self.fft_size` raises `ZeroDivisionError` exactly when
`fft_size == 0`, otherwise it returns the quotient. -/
def update_deltaf (p : Params) : Except Unit ℚ :=
  if p.fft_size = 0 then Except.error ()
  else Except.ok (p.sample_rate / (p.fft_size : ℚ))

end configuration

namespace cli

/-- The `fft_size` argument validator (src/cli_parser.py lines 41-50), after
`int(value)` has parsed the string: accept exactly when `value % 32 == 0`
(Python `%` with a positive modulus agrees with `Int.emod`), returning the
value unchanged; otherwise an `ArgumentTypeError` is raised (`none`). -/
def fft_size (v : ℤ) : Option ℤ :=
  if v % 32 = 0 then some v else none

end cli

/-! ### Generic facts about `npArange` -/

theorem npArange_length (a b s : ℚ) :
    (npArange a b s).length = (⌈(b - a) / s⌉).toNat := by
  rw [npArange, List.length_map, List.length_range, arangeLen]

theorem npArange_getElem (a b s : ℚ) (i : ℕ) (hi : i < (npArange a b s).length) :
    (npArange a b s)[i] = a + (i : ℚ) * s := by
  simp only [npArange, List.getElem_map, List.getElem_range]

theorem mem_npArange (a b s x : ℚ) :
    x ∈ npArange a b s ↔ ∃ i : ℕ, i < arangeLen a b s ∧ x = a + (i : ℚ) * s := by
  unfold npArange
  rw [List.mem_map]
  constructor
  · rintro ⟨i, hi, rfl⟩
    exact ⟨i, List.mem_range.mp hi, rfl⟩
  · rintro ⟨i, hi, rfl⟩
    exact ⟨i, List.mem_range.mpr hi, rfl⟩

theorem npArange_chain' (a b s : ℚ) (R : ℚ → ℚ → Prop) (h : ∀ x : ℚ, R x (x + s)) :
    (npArange a b s).Chain' R := by
  unfold npArange
  rw [List.chain'_map]
  cases hL : arangeLen a b s with
  | zero => simp
  | succ n =>
      rw [List.chain'_range_succ]
      intro m _
      have hc : a + ((m + 1 : ℕ) : ℚ) * s = (a + (m : ℚ) * s) + s := by push_cast; ring
      rw [hc]
      exact h _

theorem npArange_head (a b s : ℚ) (h : 0 < arangeLen a b s) :
    (npArange a b s).head? = some a := by
  unfold npArange
  cases hL : arangeLen a b s with
  | zero => omega
  | succ n =>
      rw [List.range_succ_eq_map]
      simp

theorem range_map_getLastD (f : ℕ → ℚ) (n : ℕ) (d : ℚ) :
    (((List.range (n + 1)).map f).getLastD d) = f n := by
  rw [List.range_succ, List.map_append]
  simp

theorem npArange_getLastD (a b s : ℚ) (n : ℕ) (h : arangeLen a b s = n + 1) :
    (npArange a b s).getLastD 0 = a + (n : ℚ) * s := by
  unfold npArange
  rw [h, range_map_getLastD]

theorem npArange_mem_lt (a b s : ℚ) (hs : 0 < s) (x : ℚ) (hx : x ∈ npArange a b s) :
    x < b := by
  obtain ⟨i, hi, rfl⟩ := (mem_npArange a b s x).mp hx
  have hi' : (i : ℤ) < ⌈(b - a) / s⌉ := by
    have := hi
    unfold arangeLen at this
    omega
  have hlt : (i : ℚ) < (b - a) / s := by
    have h1 : ((i : ℤ) : ℚ) ≤ (⌈(b - a) / s⌉ : ℚ) - 1 := by
      have : (i : ℤ) ≤ ⌈(b - a) / s⌉ - 1 := by omega
      exact_mod_cast this
    have h2 : (⌈(b - a) / s⌉ : ℚ) - 1 < (b - a) / s := by
      have := Int.ceil_lt_add_one ((b - a) / s)
      linarith
    calc ((i : ℕ) : ℚ) = ((i : ℤ) : ℚ) := by push_cast; ring
    _ ≤ (⌈(b - a) / s⌉ : ℚ) - 1 := h1
    _ < (b - a) / s := h2
  have := (lt_div_iff₀ hs).mp hlt
  linarith

theorem npArange_last_add_step (a b s : ℚ) (hs : 0 < s) (h : 0 < arangeLen a b s) :
    b ≤ (npArange a b s).getLastD 0 + s := by
  obtain ⟨n, hn⟩ : ∃ n, arangeLen a b s = n + 1 := ⟨arangeLen a b s - 1, by omega⟩
  rw [npArange_getLastD a b s n hn]
  have hceil : ((b - a) / s) ≤ ((n : ℚ) + 1) := by
    have h1 : ⌈(b - a) / s⌉ = (n : ℤ) + 1 := by
      unfold arangeLen at hn
      omega
    have := Int.le_ceil ((b - a) / s)
    rw [h1] at this
    exact_mod_cast this
  have := (div_le_iff₀ hs).mp hceil
  linarith

theorem npArange_length_eq (a b s : ℚ) : (npArange a b s).length = arangeLen a b s := by
  rw [npArange, List.length_map, List.length_range]

/-! ### Helper facts about the engine -/

namespace configuration

theorem deltaf_pos (p : Params) (hV : Valid p) : 0 < deltaf p := by
  obtain ⟨hs, hn, -⟩ := hV
  exact div_pos hs (by exact_mod_cast hn)

theorem one_le_freq_step (p : Params) (hfs : 0 < freq_step p) : 1 ≤ freq_step p := by
  have h : 0 < adjust_rate p.sample_rate (deltaf p) p.overlap := by
    have h' := hfs
    unfold freq_step at h'
    exact_mod_cast h'
  have h1 : 1 ≤ adjust_rate p.sample_rate (deltaf p) p.overlap := by omega
  unfold freq_step
  exact_mod_cast h1

theorem freq_step_nonneg (p : Params) (hV : Valid p) : 0 ≤ freq_step p := by
  have hd : 0 < deltaf p := deltaf_pos p hV
  obtain ⟨hs, -, -, -, hov1, -⟩ := hV
  have hy : 0 ≤ p.sample_rate * (1 - p.overlap) / deltaf p :=
    div_nonneg (mul_nonneg (le_of_lt hs) (by linarith)) (le_of_lt hd)
  unfold freq_step adjust_rate
  have h1 : (0 : ℤ) ≤ pyRound (p.sample_rate * (1 - p.overlap) / deltaf p) := by
    unfold pyRound
    rw [if_pos hy]
    apply Int.floor_nonneg.mpr
    linarith
  have h2 : (0 : ℚ) ≤ (pyRound (p.sample_rate * (1 - p.overlap) / deltaf p) : ℚ) * deltaf p :=
    mul_nonneg (by exact_mod_cast h1) (le_of_lt hd)
  have h3 : (0 : ℤ) ≤ pyInt ((pyRound (p.sample_rate * (1 - p.overlap) / deltaf p) : ℚ)
      * deltaf p) := by
    unfold pyInt
    rw [if_pos h2]
    exact Int.floor_nonneg.mpr h2
  exact_mod_cast h3

theorem one_le_floor_ratio (p : Params) (hfs : 0 < freq_step p)
    (h : ¬ span p ≤ freq_step p) : 1 ≤ ⌊span p / freq_step p⌋ := by
  rw [Int.le_floor]
  push_cast
  rw [le_div_iff₀ hfs]
  have := not_le.mp h
  linarith

theorem tuned_arangeLen (p : Params) (hfs : 0 < freq_step p)
    (h : ¬ span p ≤ freq_step p) :
    arangeLen (min_fc p)
        (min_fc p + (⌊span p / freq_step p⌋ : ℚ) * freq_step p + 1) (freq_step p)
      = (⌊span p / freq_step p⌋).toNat + 1 := by
  have hfs1 : 1 ≤ freq_step p := one_le_freq_step p hfs
  have hn1 := one_le_floor_ratio p hfs h
  unfold arangeLen
  have harg : (min_fc p + (⌊span p / freq_step p⌋ : ℚ) * freq_step p + 1 - min_fc p)
        / freq_step p
      = (1 : ℚ) / freq_step p + (⌊span p / freq_step p⌋ : ℚ) := by
    field_simp
    ring
  rw [harg]
  have hceil1 : ⌈(1 : ℚ) / freq_step p⌉ = 1 := by
    rw [Int.ceil_eq_iff]
    constructor
    · have h0 : (0 : ℚ) < 1 / freq_step p := by positivity
      push_cast
      linarith
    · have hle : (1 : ℚ) / freq_step p ≤ 1 := by
        rw [div_le_one hfs]
        exact hfs1
      push_cast
      linarith
  rw [Int.ceil_add_int, hceil1]
  omega

theorem center_freqs_length (p : Params) (hfs : 0 < freq_step p)
    (h : ¬ span p ≤ freq_step p) :
    (center_freqs p).length = (⌊span p / freq_step p⌋).toNat + 1 := by
  rw [center_freqs, if_neg h, npArange_length_eq, tuned_arangeLen p hfs h]

theorem one_le_n_segments (p : Params) (hfs : 0 < freq_step p) : 1 ≤ n_segments p := by
  unfold n_segments
  by_cases h : span p ≤ freq_step p
  · rw [center_freqs, if_pos h]
    simp
  · rw [center_freqs_length p hfs h]
    omega

theorem max_bin_freq_eq (p : Params) (hfs : 0 < freq_step p) :
    max_bin_freq p = min_freq p + (n_segments p : ℚ) * freq_step p := by
  by_cases h : span p ≤ freq_step p
  · rw [max_bin_freq, n_segments, center_freqs, if_pos h]
    have h1 : ([min_fc p].getLastD 0) = min_fc p := rfl
    rw [h1, min_fc]
    simp only [List.length_singleton, Nat.cast_one, one_mul]
    ring
  · have hn1 := one_le_floor_ratio p hfs h
    have hlast : (center_freqs p).getLastD 0
        = min_fc p + ((⌊span p / freq_step p⌋).toNat : ℚ) * freq_step p := by
      rw [center_freqs, if_neg h]
      exact npArange_getLastD _ _ _ _ (tuned_arangeLen p hfs h)
    have hcast : (((⌊span p / freq_step p⌋).toNat : ℕ) : ℚ)
        = ((⌊span p / freq_step p⌋ : ℤ) : ℚ) := by
      have := Int.toNat_of_nonneg (le_trans Int.one_nonneg hn1)
      exact_mod_cast congrArg (fun z : ℤ => (z : ℚ)) this
    have hseg : (n_segments p : ℚ) = ((⌊span p / freq_step p⌋ : ℤ) : ℚ) + 1 := by
      unfold n_segments
      rw [center_freqs_length p hfs h]
      push_cast [hcast]
      ring
    rw [max_bin_freq, hlast, hcast, hseg, min_fc]
    ring

theorem bin_freqs_length_eq (p : Params) (hfs : 0 < freq_step p) :
    (bin_freqs p).length = (⌈(n_segments p : ℚ) * freq_step p / deltaf p⌉).toNat := by
  rw [bin_freqs, npArange_length_eq]
  unfold arangeLen
  rw [max_bin_freq_eq p hfs]
  congr 2
  ring

theorem bin_freqs_length_pos (p : Params) (hV : Valid p) (hfs : 0 < freq_step p) :
    0 < (bin_freqs p).length := by
  rw [bin_freqs_length_eq p hfs]
  have hd := deltaf_pos p hV
  have hseg : (0 : ℚ) < (n_segments p : ℚ) := by
    have := one_le_n_segments p hfs
    have h1 : (1 : ℚ) ≤ (n_segments p : ℚ) := by exact_mod_cast this
    linarith
  have hk : (0 : ℚ) < (n_segments p : ℚ) * freq_step p / deltaf p :=
    div_pos (mul_pos hseg hfs) hd
  have := Int.ceil_pos.mpr hk
  omega

theorem argmin_aux_lt (l : List ℚ) (i best : ℕ) (bv : ℚ) (h : best < i) :
    argmin_aux l i best bv < i + l.length := by
  induction l generalizing i best bv with
  | nil => simpa [argmin_aux] using h
  | cons x xs ih =>
      simp only [argmin_aux, List.length_cons]
      split
      · have := ih (i + 1) i x (by omega)
        omega
      · have := ih (i + 1) best bv (by omega)
        omega

theorem find_nearest_lt_length (l : List ℚ) (v : ℚ) (h : l ≠ []) :
    find_nearest l v < l.length := by
  cases l with
  | nil => exact absurd rfl h
  | cons x xs =>
      have := argmin_aux_lt (xs.map (fun y => |y - v|)) 1 0 |x - v| Nat.zero_lt_one
      simp only [find_nearest, List.length_cons, List.length_map] at this ⊢
      omega

theorem pyInt_of_nonneg (q : ℚ) (h : 0 ≤ q) : pyInt q = ⌊q⌋ := by
  simp [pyInt, h]

theorem pyInt_intCast (m : ℤ) : pyInt (m : ℚ) = m := by
  unfold pyInt
  split
  · exact Int.floor_intCast m
  · exact Int.ceil_intCast m

theorem bin_start_eq_floor (p : Params) (hV : Valid p) :
    bin_start p = ⌊(p.fft_size : ℚ) * p.overlap / 2⌋ := by
  obtain ⟨-, -, -, hov0, -⟩ := hV
  rw [bin_start, pyInt_of_nonneg]
  · congr 1
    ring
  · exact mul_nonneg (Nat.cast_nonneg _) (by linarith)

theorem bin_stop_eq (p : Params) : bin_stop p = (p.fft_size : ℤ) - bin_start p := by
  rw [bin_stop]
  have h : ((p.fft_size : ℚ) - (bin_start p : ℚ))
      = ((((p.fft_size : ℤ) - bin_start p) : ℤ) : ℚ) := by
    push_cast
    ring
  rw [h, pyInt_intCast]

end configuration

namespace configuration

/-- Builds `Valid` for a parameter set without a requested span. -/
theorem Valid.mk_none {c samp : ℚ} {n : ℕ} {ov : ℚ} (h1 : 0 < samp) (h2 : 0 < n)
    (h3 : 32 ∣ n) (h4 : 0 ≤ ov) (h5 : ov < 1) : Valid ⟨c, none, samp, n, ov⟩ := by
  unfold Valid
  exact ⟨h1, h2, h3, h4, h5, by simp⟩

/-- Builds `Valid` for a parameter set with a positive requested span. -/
theorem Valid.mk_some {c s samp : ℚ} {n : ℕ} {ov : ℚ} (h1 : 0 < samp) (h2 : 0 < n)
    (h3 : 32 ∣ n) (h4 : 0 ≤ ov) (h5 : ov < 1) (h6 : 0 < s) :
    Valid ⟨c, some s, samp, n, ov⟩ := by
  unfold Valid
  refine ⟨h1, h2, h3, h4, h5, ?_⟩
  intro x hx
  simp only [Option.mem_def, Option.some.injEq] at hx
  subst hx
  exact h6

end configuration

open configuration

/-- Claim C1 (code bug): `adjust_rate` is documented — and specified — to
return `sample_rate*(1-overlap)` rounded so that a whole number of bins of
size `deltaf` fits, but the trailing `int()` truncation breaks this whenever
the rounded multiple is not an integer: at sample_rate 10^7, fft_size 1024
(deltaf = 10^7/1024), overlap 1/10 it returns 9003906, which is not an
integer multiple of deltaf (the rounded value is 922 bins = 9003906.25).
The claim's own example (overlap 1/4, result 7500000) does hold. -/
theorem C1_adjust_rate_truncation_bug :
    adjust_rate (10 ^ 7) ((10 ^ 7 : ℚ) / 1024) (1 / 10) = 9003906 ∧
    (¬ ∃ n : ℤ, ((9003906 : ℤ) : ℚ) = (n : ℚ) * ((10 ^ 7 : ℚ) / 1024)) ∧
    adjust_rate (10 ^ 7) ((10 ^ 7 : ℚ) / 1024) (1 / 4) = 7500000 := by
  refine ⟨by norm_num [adjust_rate, pyRound, pyInt, Int.floor_eq_iff], ?_,
    by norm_num [adjust_rate, pyRound, pyInt, Int.floor_eq_iff]⟩
  rintro ⟨n, hn⟩
  have h1 : (n : ℚ) * 10 ^ 7 = 9003906 * 1024 := by
    field_simp at hn
    linarith
  have h2 : n * 10 ^ 7 = 9003906 * 1024 := by exact_mod_cast h1
  omega

/-- Claim C4 (counterexample): at fft_size 32, overlap 3/100 the kept range
has size 32, yet `floor(fft_size * (1 - overlap)) = 31`, so the claimed
"size = fft_size*(1-overlap) rounded down" is false. -/
theorem C4_crop_size_counterexample :
    Valid ⟨0, none, 32, 32, 3 / 100⟩ ∧
    bin_start ⟨0, none, 32, 32, 3 / 100⟩ = 0 ∧
    bin_stop ⟨0, none, 32, 32, 3 / 100⟩ = 32 ∧
    bin_stop ⟨0, none, 32, 32, 3 / 100⟩ - bin_start ⟨0, none, 32, 32, 3 / 100⟩
      ≠ ⌊(((⟨0, none, 32, 32, 3 / 100⟩ : Params).fft_size : ℚ)
          * (1 - (⟨0, none, 32, 32, 3 / 100⟩ : Params).overlap))⌋ := by
  have hstart : bin_start ⟨0, none, 32, 32, 3 / 100⟩ = 0 := by
    norm_num [bin_start, pyInt, Int.floor_eq_iff]
  have hstop : bin_stop ⟨0, none, 32, 32, 3 / 100⟩ = 32 := by
    norm_num [bin_stop, hstart, pyInt, Int.floor_eq_iff]
  have hfl : ⌊(((⟨0, none, 32, 32, 3 / 100⟩ : Params).fft_size : ℚ)
      * (1 - (⟨0, none, 32, 32, 3 / 100⟩ : Params).overlap))⌋ = (31 : ℤ) := by
    norm_num [Int.floor_eq_iff]
  exact ⟨Valid.mk_none (by norm_num) (by norm_num) (by norm_num) (by norm_num) (by norm_num),
    hstart, hstop, by rw [hstart, hstop, hfl]; norm_num⟩

/-- Claim C4 (amended): `bin_start = floor(fft_size*overlap/2)` and
`bin_stop = fft_size - bin_start`, so the kept range is symmetric about the
capture center and has size `fft_size - 2*floor(fft_size*overlap/2)`; that
size equals `fft_size*(1-overlap)` rounded down exactly when
`fft_size*overlap/2` is an integer, and `overlap = 0` gives
`bin_start = 0`, `bin_stop = fft_size`. -/
theorem C4_crop_indices (p : Params) (hV : Valid p) :
    bin_start p = ⌊(p.fft_size : ℚ) * p.overlap / 2⌋ ∧
    bin_stop p = (p.fft_size : ℤ) - bin_start p ∧
    (p.fft_size : ℤ) - bin_stop p = bin_start p ∧
    bin_stop p - bin_start p = (p.fft_size : ℤ) - 2 * ⌊(p.fft_size : ℚ) * p.overlap / 2⌋ ∧
    ((∃ m : ℤ, (p.fft_size : ℚ) * p.overlap / 2 = (m : ℚ)) →
      bin_stop p - bin_start p = ⌊(p.fft_size : ℚ) * (1 - p.overlap)⌋) ∧
    (p.overlap = 0 → bin_start p = 0 ∧ bin_stop p = (p.fft_size : ℤ)) := by
  have h1 := bin_start_eq_floor p hV
  have h2 := bin_stop_eq p
  refine ⟨h1, h2, by omega, by omega, ?_, ?_⟩
  · rintro ⟨m, hm⟩
    have hfl : ⌊(p.fft_size : ℚ) * p.overlap / 2⌋ = m := by
      rw [hm]
      exact Int.floor_intCast m
    have hprod : (p.fft_size : ℚ) * p.overlap = 2 * (m : ℚ) := by
      field_simp at hm
      linarith
    have hrw : (p.fft_size : ℚ) * (1 - p.overlap) = (((p.fft_size : ℤ) - 2 * m : ℤ) : ℚ) := by
      push_cast
      ring_nf
      ring_nf at hprod
      linarith
    rw [hrw, Int.floor_intCast]
    omega
  · intro h0
    constructor
    · rw [h1, h0]
      norm_num
    · rw [h2, h1, h0]
      norm_num

/-- Witness for C4 at fft_size 32, overlap 0: `bin_start = 0`,
`bin_stop = 32`. -/
theorem C4_crop_indices_witness :
    Valid ⟨16, none, 32, 32, 0⟩ ∧ bin_start ⟨16, none, 32, 32, 0⟩ = 0 ∧
    bin_stop ⟨16, none, 32, 32, 0⟩ = 32 := by
  have hV : Valid ⟨16, none, 32, 32, 0⟩ :=
    Valid.mk_none (by norm_num) (by norm_num) (by norm_num) (by norm_num) (by norm_num)
  obtain ⟨ha, hb⟩ := (C4_crop_indices _ hV).2.2.2.2.2 rfl
  refine ⟨hV, ha, ?_⟩
  rw [hb]
  norm_num

/-- Claim C5 (counterexample): at fft_size 32, overlap 1/100 (a positive
overlap) `bin_start = 0` and `bin_stop = 32 = fft_size`, so the kept range
does include the very first and very last bins of the capture. -/
theorem C5_edge_bins_counterexample :
    Valid ⟨0, none, 32, 32, 1 / 100⟩ ∧
    0 < (⟨0, none, 32, 32, 1 / 100⟩ : Params).overlap ∧
    bin_start ⟨0, none, 32, 32, 1 / 100⟩ = 0 ∧
    bin_stop ⟨0, none, 32, 32, 1 / 100⟩ = 32 := by
  have hstart : bin_start ⟨0, none, 32, 32, 1 / 100⟩ = 0 := by
    norm_num [bin_start, pyInt, Int.floor_eq_iff]
  refine ⟨Valid.mk_none (by norm_num) (by norm_num) (by norm_num) (by norm_num) (by norm_num),
    by norm_num, hstart, ?_⟩
  norm_num [bin_stop, hstart, pyInt, Int.floor_eq_iff]

/-- Claim C5 (amended): `0 ≤ bin_start < bin_stop ≤ fft_size` always holds
for valid parameters, and the edge-bin exclusion (`bin_start ≥ 1` and
`bin_stop ≤ fft_size - 1`) holds under the stronger premise
`fft_size * overlap ≥ 2`, not under `overlap > 0` alone. -/
theorem C5_crop_bounds (p : Params) (hV : Valid p) :
    0 ≤ bin_start p ∧ bin_start p < bin_stop p ∧ bin_stop p ≤ (p.fft_size : ℤ) ∧
    (2 ≤ (p.fft_size : ℚ) * p.overlap →
      1 ≤ bin_start p ∧ bin_stop p ≤ (p.fft_size : ℤ) - 1) := by
  have h1 := bin_start_eq_floor p hV
  have h2 := bin_stop_eq p
  obtain ⟨-, hn, -, hov0, hov1, -⟩ := hV
  have hf : (0 : ℚ) < (p.fft_size : ℚ) := by exact_mod_cast hn
  have hnn : (0 : ℚ) ≤ (p.fft_size : ℚ) * p.overlap / 2 :=
    div_nonneg (mul_nonneg (Nat.cast_nonneg _) hov0) (by norm_num)
  have hstart0 : 0 ≤ bin_start p := by
    rw [h1]
    exact Int.floor_nonneg.mpr hnn
  have h2start : 2 * bin_start p < (p.fft_size : ℤ) := by
    have hfl : (bin_start p : ℚ) ≤ (p.fft_size : ℚ) * p.overlap / 2 := by
      rw [h1]
      exact Int.floor_le _
    have hlt : (p.fft_size : ℚ) * p.overlap < (p.fft_size : ℚ) := by nlinarith
    have : 2 * (bin_start p : ℚ) < (p.fft_size : ℚ) := by linarith
    exact_mod_cast this
  refine ⟨hstart0, by omega, by omega, ?_⟩
  intro hge
  have hge1 : ((1 : ℤ) : ℚ) ≤ (p.fft_size : ℚ) * p.overlap / 2 := by
    push_cast
    linarith
  have hs1 : 1 ≤ bin_start p := by
    rw [h1]
    exact Int.le_floor.mpr hge1
  exact ⟨hs1, by omega⟩

/-- Witness for C5 at fft_size 32, overlap 1/4 (`fft_size*overlap = 8 ≥ 2`):
`bin_start ≥ 1` and `bin_stop ≤ 31`. -/
theorem C5_crop_bounds_witness :
    Valid ⟨0, none, 32, 32, 1 / 4⟩ ∧ 1 ≤ bin_start ⟨0, none, 32, 32, 1 / 4⟩ ∧
    bin_stop ⟨0, none, 32, 32, 1 / 4⟩ ≤ 31 := by
  have hV : Valid ⟨0, none, 32, 32, 1 / 4⟩ :=
    Valid.mk_none (by norm_num) (by norm_num) (by norm_num) (by norm_num) (by norm_num)
  obtain ⟨ha, hb⟩ := (C5_crop_bounds _ hV).2.2.2 (by norm_num)
  exact ⟨hV, ha, by simpa using hb⟩

/-- Claim C9 (confirmed): the bin-width computation
`sample_rate / fft_size` fails exactly when `fft_size = 0` (Python raises
there before any field is assigned, so `update()` leaves the previous state
untouched) and otherwise returns the quotient with no other effect. -/
theorem C9_bin_width_contract (p : Params) (pl : Plan) :
    (p.fft_size = 0 →
      update_deltaf p = Except.error () ∧ updateConfig p pl = (pl, false)) ∧
    (p.fft_size ≠ 0 →
      update_deltaf p = Except.ok (p.sample_rate / (p.fft_size : ℚ))) := by
  refine ⟨fun h => ⟨?_, ?_⟩, fun h => ?_⟩
  · unfold update_deltaf
    rw [if_pos h]
  · unfold updateConfig
    rw [if_pos h]
  · unfold update_deltaf
    rw [if_neg h]

/-- Witness for C9: fft_size 0 errors; fft_size 32 with sample rate 32
returns bin width 1. -/
theorem C9_bin_width_contract_witness :
    update_deltaf ⟨0, none, 10 ^ 7, 0, 1 / 4⟩ = Except.error () ∧
    update_deltaf ⟨0, none, 32, 32, 0⟩ = Except.ok 1 := by
  refine ⟨((C9_bin_width_contract ⟨0, none, 10 ^ 7, 0, 1 / 4⟩ {}).1 rfl).1, ?_⟩
  have h := (C9_bin_width_contract ⟨0, none, 32, 32, 0⟩ {}).2 (by norm_num)
  rw [h]
  norm_num

/-- Claim C10 (confirmed): the command-line `fft_size` validator accepts an
integer exactly when it is divisible by 32 — in particular it accepts 0 and
-32 — and a 0 that passes it reaches the unguarded division in
`update_deltaf`, which then fails. -/
theorem C10_cli_fft_size_validator (v : ℤ) :
    ((cli.fft_size v).isSome = true ↔ v % 32 = 0) ∧
    cli.fft_size 0 = some 0 ∧ cli.fft_size (-32) = some (-32) ∧
    (∀ p : Params, p.fft_size = 0 → update_deltaf p = Except.error ()) := by
  refine ⟨?_, by decide, by decide, ?_⟩
  · unfold cli.fft_size
    split
    · simp_all
    · simp_all
  · intro p h
    unfold update_deltaf
    rw [if_pos h]

/-- Witness for C10: the validator accepts 0, rejects 33, and
`update_deltaf` errors on a configuration with fft_size 0. -/
theorem C10_cli_fft_size_validator_witness :
    (cli.fft_size 0).isSome = true ∧ (cli.fft_size 33).isSome = false ∧
    update_deltaf ⟨0, none, 1, 0, 0⟩ = Except.error () := by
  refine ⟨(C10_cli_fft_size_validator 0).1.mpr (by decide), by decide,
    (C10_cli_fft_size_validator 0).2.2.2 ⟨0, none, 1, 0, 0⟩ rfl⟩

/-- Claim C2 (confirmed): for valid parameters on which
`update_tuned_freq_cache` completes (`span ≤ freq_step`, or `freq_step ≠ 0`
— with a positive span and `freq_step = 0` the Python code raises
`ZeroDivisionError` and produces no sequence), `center_freqs` has length
≥ 1, consecutive centers increase strictly and differ by exactly
`freq_step`, the length is exactly 1 when `span ≤ freq_step`, and a null
`requested_span` gives `span = freq_step` and the single center
`min_freq + freq_step/2`. -/
theorem C2_segment_centers (p : Params) (hV : Valid p)
    (hok : span p ≤ freq_step p ∨ freq_step p ≠ 0) :
    1 ≤ (center_freqs p).length ∧
    (center_freqs p).Chain' (fun a b => a < b ∧ b = a + freq_step p) ∧
    (span p ≤ freq_step p → (center_freqs p).length = 1) ∧
    (p.requested_span = none →
      span p = freq_step p ∧ center_freqs p = [min_freq p + freq_step p / 2]) := by
  have hnull : p.requested_span = none →
      span p = freq_step p ∧ center_freqs p = [min_freq p + freq_step p / 2] := by
    intro h
    have hspan : span p = freq_step p := by
      unfold span
      rw [h]
    refine ⟨hspan, ?_⟩
    rw [center_freqs, if_pos (le_of_eq hspan), min_fc]
  by_cases h : span p ≤ freq_step p
  · refine ⟨?_, ?_, fun _ => ?_, hnull⟩ <;> rw [center_freqs, if_pos h] <;> simp
  · have hfs : 0 < freq_step p := by
      rcases hok with hok | hok
      · exact absurd hok h
      · exact lt_of_le_of_ne (freq_step_nonneg p hV) (Ne.symm hok)
    refine ⟨one_le_n_segments p hfs, ?_, fun hc => absurd hc h, hnull⟩
    rw [center_freqs, if_neg h]
    exact npArange_chain' _ _ _ _ (fun x => ⟨by linarith, rfl⟩)

/-- Witness for C2 at center 16, sample rate 32, fft_size 32, overlap 0,
no requested span: a single segment. -/
theorem C2_segment_centers_witness :
    Valid ⟨16, none, 32, 32, 0⟩ ∧ freq_step ⟨16, none, 32, 32, 0⟩ = 32 ∧
    (center_freqs ⟨16, none, 32, 32, 0⟩).length = 1 ∧
    span ⟨16, none, 32, 32, 0⟩ = freq_step ⟨16, none, 32, 32, 0⟩ := by
  have hV : Valid ⟨16, none, 32, 32, 0⟩ :=
    Valid.mk_none (by norm_num) (by norm_num) (by norm_num) (by norm_num) (by norm_num)
  have hfs : freq_step ⟨16, none, 32, 32, 0⟩ = 32 := by
    norm_num [freq_step, adjust_rate, deltaf, pyRound, pyInt, Int.floor_eq_iff]
  have h := C2_segment_centers ⟨16, none, 32, 32, 0⟩ hV (Or.inr (by rw [hfs]; norm_num))
  obtain ⟨hsp, -⟩ := h.2.2.2 rfl
  exact ⟨hV, hfs, h.2.2.1 (le_of_eq hsp), hsp⟩

/-- Claim C3 (confirmed): for valid parameters on which `update()` succeeds
(`freq_step > 0`), `bin_freqs` starts at `min_freq`, is strictly increasing
with constant step `deltaf`, every entry is below the exclusive bound
`max_bin_freq = last_center + freq_step/2`, no final bin is missing
(the bound lies within one step of the last entry), and the length differs
from `n_segments * (freq_step/deltaf)` — segment count times usable bins
per segment — by at most 1. -/
theorem C3_bin_frequencies (p : Params) (hV : Valid p) (hfs : 0 < freq_step p) :
    (bin_freqs p).Chain' (fun a b => a < b ∧ b = a + deltaf p) ∧
    (bin_freqs p).head? = some (min_freq p) ∧
    (∀ x ∈ bin_freqs p, x < max_bin_freq p) ∧
    max_bin_freq p ≤ (bin_freqs p).getLastD 0 + deltaf p ∧
    |((bin_freqs p).length : ℚ) - (n_segments p : ℚ) * (freq_step p / deltaf p)| ≤ 1 := by
  have hd := deltaf_pos p hV
  have hpos : 0 < arangeLen (min_freq p) (max_bin_freq p) (deltaf p) := by
    have := bin_freqs_length_pos p hV hfs
    rwa [bin_freqs, npArange_length_eq] at this
  refine ⟨?_, ?_, ?_, ?_, ?_⟩
  · rw [bin_freqs]
    exact npArange_chain' _ _ _ _ (fun x => ⟨by linarith, rfl⟩)
  · rw [bin_freqs]
    exact npArange_head _ _ _ hpos
  · intro x hx
    rw [bin_freqs] at hx
    exact npArange_mem_lt _ _ _ hd x hx
  · rw [bin_freqs]
    exact npArange_last_add_step _ _ _ hd hpos
  · have hlen := bin_freqs_length_eq p hfs
    have hrw : (n_segments p : ℚ) * (freq_step p / deltaf p)
        = (n_segments p : ℚ) * freq_step p / deltaf p := (mul_div_assoc _ _ _).symm
    rw [hlen, hrw]
    have hseg : (0 : ℚ) < (n_segments p : ℚ) := by
      have h1 : (1 : ℕ) ≤ n_segments p := one_le_n_segments p hfs
      have : (1 : ℚ) ≤ (n_segments p : ℚ) := by exact_mod_cast h1
      linarith
    have hx : (0 : ℚ) < (n_segments p : ℚ) * freq_step p / deltaf p :=
      div_pos (mul_pos hseg hfs) hd
    have hcpos : 0 < ⌈(n_segments p : ℚ) * freq_step p / deltaf p⌉ := Int.ceil_pos.mpr hx
    have hcast : (((⌈(n_segments p : ℚ) * freq_step p / deltaf p⌉).toNat : ℕ) : ℚ)
        = ((⌈(n_segments p : ℚ) * freq_step p / deltaf p⌉ : ℤ) : ℚ) := by
      exact_mod_cast Int.toNat_of_nonneg (le_of_lt hcpos)
    rw [hcast, abs_le]
    have hle := Int.le_ceil ((n_segments p : ℚ) * freq_step p / deltaf p)
    have hlt := Int.ceil_lt_add_one ((n_segments p : ℚ) * freq_step p / deltaf p)
    constructor <;> linarith

/-- Witness for C3 at center 16, sample rate 32, fft_size 32, overlap 0:
`bin_freqs` starts at `min_freq = 1/2`. -/
theorem C3_bin_frequencies_witness :
    Valid ⟨16, none, 32, 32, 0⟩ ∧ 0 < freq_step ⟨16, none, 32, 32, 0⟩ ∧
    (bin_freqs ⟨16, none, 32, 32, 0⟩).head? = some (min_freq ⟨16, none, 32, 32, 0⟩) ∧
    min_freq ⟨16, none, 32, 32, 0⟩ = 1 / 2 := by
  have hV : Valid ⟨16, none, 32, 32, 0⟩ :=
    Valid.mk_none (by norm_num) (by norm_num) (by norm_num) (by norm_num) (by norm_num)
  have hfs : (0 : ℚ) < freq_step ⟨16, none, 32, 32, 0⟩ := by
    norm_num [freq_step, adjust_rate, deltaf, pyRound, pyInt, Int.floor_eq_iff]
  refine ⟨hV, hfs, (C3_bin_frequencies _ hV hfs).2.1, ?_⟩
  norm_num [min_freq, span, freq_step, adjust_rate, deltaf, pyRound, pyInt, Int.floor_eq_iff]

/-- Claim C6 (counterexample): at center 0, sample rate 32, fft_size 32,
overlap 15/16 and no requested span (all valid, `freq_step = 2 > 0`,
`update()` succeeds), `max_freq` falls exactly on the last entry of
`bin_freqs`, so `max_plotted_bin = 2 = len(bin_freqs)` — not strictly less
as claimed (Python slicing `[0:2]` of a length-2 array is still in
bounds). -/
theorem C6_max_plotted_bin_counterexample :
    Valid ⟨0, none, 32, 32, 15 / 16⟩ ∧ 0 < freq_step ⟨0, none, 32, 32, 15 / 16⟩ ∧
    max_plotted_bin ⟨0, none, 32, 32, 15 / 16⟩
      = (bin_freqs ⟨0, none, 32, 32, 15 / 16⟩).length := by
  refine ⟨Valid.mk_none (by norm_num) (by norm_num) (by norm_num) (by norm_num) (by norm_num),
    by norm_num [freq_step, adjust_rate, deltaf, pyRound, pyInt, Int.floor_eq_iff], ?_⟩
  have h1 : max_plotted_bin ⟨0, none, 32, 32, 15 / 16⟩ = 2 := by
    norm_num [max_plotted_bin, find_nearest, argmin_aux, bin_freqs, max_bin_freq,
      center_freqs, span, min_fc, min_freq, max_freq,
      freq_step, adjust_rate, deltaf, pyRound, pyInt, npArange, arangeLen,
      Int.floor_eq_iff, Int.ceil_eq_iff, (show Int.toNat 2 = 2 from rfl),
      List.range_succ, List.range_zero]
  have h2 : (bin_freqs ⟨0, none, 32, 32, 15 / 16⟩).length = 2 := by
    norm_num [bin_freqs, max_bin_freq, center_freqs, span, min_fc, min_freq, max_freq,
      freq_step, adjust_rate, deltaf, pyRound, pyInt, npArange, arangeLen,
      Int.floor_eq_iff, Int.ceil_eq_iff, (show Int.toNat 2 = 2 from rfl),
      List.range_succ, List.range_zero]
  rw [h1, h2]

/-- Claim C6 (amended): for valid parameters on which `update()` succeeds,
`max_plotted_bin ≤ len(bin_freqs)` — the bound is attained, so only the
non-strict inequality holds; Python slicing `bin_freqs[0:max_plotted_bin]`
remains in bounds because a slice end equal to the length is allowed. -/
theorem C6_max_plotted_bin_le (p : Params) (hV : Valid p) (hfs : 0 < freq_step p) :
    max_plotted_bin p ≤ (bin_freqs p).length := by
  have hne : bin_freqs p ≠ [] :=
    List.ne_nil_of_length_pos (bin_freqs_length_pos p hV hfs)
  have h := find_nearest_lt_length (bin_freqs p) (max_freq p) hne
  unfold max_plotted_bin
  omega

/-- Witness for C6 at center 0, sample rate 32, fft_size 32, overlap
15/16. -/
theorem C6_max_plotted_bin_le_witness :
    Valid ⟨0, none, 32, 32, 15 / 16⟩ ∧ 0 < freq_step ⟨0, none, 32, 32, 15 / 16⟩ ∧
    max_plotted_bin ⟨0, none, 32, 32, 15 / 16⟩
      ≤ (bin_freqs ⟨0, none, 32, 32, 15 / 16⟩).length := by
  have hV : Valid ⟨0, none, 32, 32, 15 / 16⟩ :=
    Valid.mk_none (by norm_num) (by norm_num) (by norm_num) (by norm_num) (by norm_num)
  have hfs : (0 : ℚ) < freq_step ⟨0, none, 32, 32, 15 / 16⟩ := by
    norm_num [freq_step, adjust_rate, deltaf, pyRound, pyInt, Int.floor_eq_iff]
  exact ⟨hV, hfs, C6_max_plotted_bin_le _ hV hfs⟩

namespace configuration

theorem step_tuned_preserve (st : Plan) :
    (step_tuned st).1.deltaf = st.deltaf ∧
    (step_tuned st).1.max_plotted_bin = st.max_plotted_bin ∧
    (step_tuned st).1.bin_offset = st.bin_offset := by
  unfold step_tuned
  split_ifs <;> exact ⟨rfl, rfl, rfl⟩

theorem step_bin_freqs_preserve (st : Plan) :
    (step_bin_freqs st).1.deltaf = st.deltaf ∧
    (step_bin_freqs st).1.max_plotted_bin = st.max_plotted_bin ∧
    (step_bin_freqs st).1.bin_offset = st.bin_offset := by
  unfold step_bin_freqs
  cases st.center_freqs.getLast? <;> exact ⟨rfl, rfl, rfl⟩

theorem step_bin_indices_deltaf (p : Params) (st : Plan) :
    (step_bin_indices p st).1.deltaf = st.deltaf := by
  unfold step_bin_indices
  split_ifs <;> rfl

theorem step_bin_indices_false_preserve (p : Params) (st : Plan)
    (h : (step_bin_indices p st).2 = false) :
    (step_bin_indices p st).1.max_plotted_bin = st.max_plotted_bin ∧
    (step_bin_indices p st).1.bin_offset = st.bin_offset := by
  unfold step_bin_indices at h ⊢
  split_ifs at h ⊢
  exact ⟨rfl, rfl⟩

theorem updateConfig_deltaf (p : Params) (old : Plan) (h : p.fft_size ≠ 0) :
    (updateConfig p old).1.deltaf = p.sample_rate / (p.fft_size : ℚ) := by
  unfold updateConfig
  rw [if_neg h]
  cases h5 : step_tuned (step_min_max p (step_span p (step_freq_step p (step_deltaf p old)))) with
  | mk st b =>
    have hd5 : st.deltaf = p.sample_rate / (p.fft_size : ℚ) := by
      have h1 := (step_tuned_preserve
        (step_min_max p (step_span p (step_freq_step p (step_deltaf p old))))).1
      rw [h5] at h1
      exact h1
    cases b
    · exact hd5
    · dsimp only
      cases h6 : step_bin_freqs st with
      | mk st6 b6 =>
        have hd6 : st6.deltaf = p.sample_rate / (p.fft_size : ℚ) := by
          have h2 := (step_bin_freqs_preserve st).1
          rw [h6] at h2
          exact h2.trans hd5
        cases b6
        · exact hd6
        · exact (step_bin_indices_deltaf p st6).trans hd6

end configuration

/-- Claim C7 (counterexample): recomputation is not atomic.  At sample rate
10^7, fft_size 32, overlap 99/100 and requested span 100, `freq_step` is 0
and `update()` raises inside `update_tuned_freq_cache` — but
`update_deltaf` has already overwritten `deltaf`: starting from a previous
plan with `deltaf = 42`, the failed update leaves `deltaf = 312500 ≠ 42`,
so not every derived field retains its previous value. -/
theorem C7_update_not_atomic :
    Valid ⟨7 * 10 ^ 8, some 100, 10 ^ 7, 32, 99 / 100⟩ ∧
    (updateConfig ⟨7 * 10 ^ 8, some 100, 10 ^ 7, 32, 99 / 100⟩ { deltaf := 42 }).2 = false ∧
    (updateConfig ⟨7 * 10 ^ 8, some 100, 10 ^ 7, 32, 99 / 100⟩ { deltaf := 42 }).1.deltaf
      = 312500 := by
  refine ⟨Valid.mk_some (by norm_num) (by norm_num) (by norm_num) (by norm_num)
    (by norm_num) (by norm_num), ?_, ?_⟩ <;>
  norm_num [updateConfig, step_deltaf, step_freq_step, step_span, step_min_max, step_tuned,
    adjust_rate, pyRound, pyInt, Int.floor_eq_iff]

/-- Claim C7 (amended): when `update()` fails, only the fields assigned after
the failing statement keep their previous values; fields assigned earlier may
already hold new values (see the counterexample for `deltaf`).  The last two
assignments of the chain, `max_plotted_bin` and `bin_offset`, always lie
after every possible failure point, so they are retained on any failure. -/
theorem C7_update_failure_keeps_tail (p : Params) (old : Plan)
    (h : (updateConfig p old).2 = false) :
    (updateConfig p old).1.max_plotted_bin = old.max_plotted_bin ∧
    (updateConfig p old).1.bin_offset = old.bin_offset := by
  by_cases hfft : p.fft_size = 0
  · unfold updateConfig
    rw [if_pos hfft]
    exact ⟨rfl, rfl⟩
  · unfold updateConfig at h ⊢
    rw [if_neg hfft] at h ⊢
    cases h5 : step_tuned (step_min_max p (step_span p (step_freq_step p (step_deltaf p old)))) with
    | mk st b =>
      rw [h5] at h
      have hp5 := step_tuned_preserve
        (step_min_max p (step_span p (step_freq_step p (step_deltaf p old))))
      rw [h5] at hp5
      cases b
      · exact ⟨hp5.2.1, hp5.2.2⟩
      · dsimp only at h ⊢
        cases h6 : step_bin_freqs st with
        | mk st6 b6 =>
          rw [h6] at h
          have hp6 := step_bin_freqs_preserve st
          rw [h6] at hp6
          cases b6
          · exact ⟨hp6.2.1.trans hp5.2.1, hp6.2.2.trans hp5.2.2⟩
          · dsimp only at h ⊢
            have h7 := step_bin_indices_false_preserve p st6 h
            exact ⟨(h7.1.trans hp6.2.1).trans hp5.2.1, (h7.2.trans hp6.2.2).trans hp5.2.2⟩

/-- Witness for C7: the failing update of the counterexample configuration
retains `max_plotted_bin` and `bin_offset` from the previous plan. -/
theorem C7_update_failure_keeps_tail_witness :
    (updateConfig ⟨7 * 10 ^ 8, some 100, 10 ^ 7, 32, 99 / 100⟩
      { deltaf := 42, max_plotted_bin := 7, bin_offset := 5 }).1.max_plotted_bin = 7 ∧
    (updateConfig ⟨7 * 10 ^ 8, some 100, 10 ^ 7, 32, 99 / 100⟩
      { deltaf := 42, max_plotted_bin := 7, bin_offset := 5 }).1.bin_offset = 5 := by
  have h : (updateConfig ⟨7 * 10 ^ 8, some 100, 10 ^ 7, 32, 99 / 100⟩
      { deltaf := 42, max_plotted_bin := 7, bin_offset := 5 }).2 = false := by
    norm_num [updateConfig, step_deltaf, step_freq_step, step_span, step_min_max, step_tuned,
      adjust_rate, pyRound, pyInt, Int.floor_eq_iff]
  exact C7_update_failure_keeps_tail _ _ h

/-- Claim C8 (counterexample): `set_fft_size` never triggers recomputation.
Start from center 0, sample rate 32, fft_size 32, overlap 15/16, whose
successful `update()` stores `deltaf = 1`; `set_fft_size 64` accepts the
valid new size but touches no derived field, so when the mutator returns
the stored `deltaf = 1` differs from `sample_rate/fft_size = 32/64`. -/
theorem C8_set_fft_size_stale :
    (set_fft_size ⟨0, none, 32, 32, 15 / 16⟩ 64).fft_size = 64 ∧
    (updateConfig ⟨0, none, 32, 32, 15 / 16⟩ {}).2 = true ∧
    (updateConfig ⟨0, none, 32, 32, 15 / 16⟩ {}).1.deltaf = 1 ∧
    (1 : ℚ) ≠ (set_fft_size ⟨0, none, 32, 32, 15 / 16⟩ 64).sample_rate
      / ((set_fft_size ⟨0, none, 32, 32, 15 / 16⟩ 64).fft_size : ℚ) := by
  refine ⟨by norm_num [set_fft_size, FFT_SIZES], ?_, ?_, ?_⟩
  · norm_num [updateConfig, step_deltaf, step_freq_step, step_span, step_min_max, step_tuned,
      step_bin_freqs, step_bin_indices, find_nearest, argmin_aux,
      adjust_rate, pyRound, pyInt, npArange, arangeLen,
      Int.floor_eq_iff, Int.ceil_eq_iff, (show Int.toNat 2 = 2 from rfl),
      List.range_succ, List.range_zero]
    simp
  · have h := updateConfig_deltaf ⟨0, none, 32, 32, 15 / 16⟩ {} (by norm_num)
    rw [h]
    norm_num
  · norm_num [set_fft_size, FFT_SIZES]

/-- Claim C8 (amended): `set_fft_size` only validates and stores the new
size (keeping the old one when the size is not in `FFT_SIZES`); it does not
recompute any derived field.  The plan becomes consistent with the new size
only through a separate call to `update()`, after which `deltaf` equals
`sample_rate / new_size`. -/
theorem C8_set_fft_size_then_update (p : Params) (size : ℕ) (pl : Plan)
    (hmem : size ∈ FFT_SIZES) :
    set_fft_size p size = { p with fft_size := size } ∧
    (updateConfig (set_fft_size p size) pl).1.deltaf = p.sample_rate / (size : ℚ) := by
  have hset : set_fft_size p size = { p with fft_size := size } := by
    unfold set_fft_size
    rw [if_pos hmem]
  have hnz : size ≠ 0 := by
    intro h0
    subst h0
    norm_num [FFT_SIZES] at hmem
  refine ⟨hset, ?_⟩
  rw [hset]
  exact updateConfig_deltaf { p with fft_size := size } pl hnz

/-- Witness for C8: mutating fft_size from 32 to 64 and then running
`update()` yields `deltaf = 32/64 = 1/2`. -/
theorem C8_set_fft_size_then_update_witness :
    (set_fft_size ⟨0, none, 32, 32, 15 / 16⟩ 64).fft_size = 64 ∧
    (updateConfig (set_fft_size ⟨0, none, 32, 32, 15 / 16⟩ 64) {}).1.deltaf = 1 / 2 := by
  have h := C8_set_fft_size_then_update ⟨0, none, 32, 32, 15 / 16⟩ 64 {}
    (by norm_num [FFT_SIZES])
  constructor
  · rw [h.1]
  · rw [h.2]
    norm_num
